import Mathlib

/-!
Verification of the organiQ repository orchestrator and HTTP tools.

Python strings are modelled as lists of characters.  The definitions below
are shallow embeddings of the code in src/agentic_workflow/main.py,
src/tools/scrape_tools.py and src/tools/search_tools.py.
-/

set_option autoImplicit false

/-- headMatches p s is true when the list s begins with the list p
    (the check used by Python str.split while scanning for the separator). -/
def headMatches : List Char → List Char → Bool
  | [], _ => true
  | _ :: _, [] => false
  | p :: ps, c :: cs => (p = c) && headMatches ps cs

/-- containsSlice delim s is true when delim occurs as a contiguous slice of s
    (Python: delim in s, for non-empty delim). -/
def containsSlice (delim : List Char) : List Char → Bool
  | [] => headMatches delim []
  | c :: rest => headMatches delim (c :: rest) || containsSlice delim rest

/-- endsWithStartOf delim s is true when some non-empty suffix of s is an
    initial run of delim, that is, s ends with a non-empty prefix of delim. -/
def endsWithStartOf (delim : List Char) : List Char → Bool
  | [] => false
  | c :: rest => headMatches (c :: rest) delim || endsWithStartOf delim rest

/-- Fuel-indexed worker for Python str.split with a non-empty separator
    d :: ds.  The fuel only needs to be at least the length of the input;
    pySplit below always supplies enough. -/
def pySplitF (d : Char) (ds : List Char) : Nat → List Char → List (List Char)
  | _, [] => [[]]
  | 0, s => [s]
  | fuel + 1, c :: rest =>
      if (d = c) && headMatches ds rest then
        [] :: pySplitF d ds fuel (rest.drop ds.length)
      else
        match pySplitF d ds fuel rest with
        | [] => [[c]]
        | seg :: segs => (c :: seg) :: segs

/-- Python str.split(sep) for a non-empty separator: scan left to right,
    cutting at each non-overlapping occurrence of sep.  Python raises
    ValueError on an empty separator; that case is unused here. -/
def pySplit (delim s : List Char) : List (List Char) :=
  match delim with
  | [] => [s]
  | d :: ds => pySplitF d ds s.length s

/-- Python sep.join(pieces). -/
def pyJoin (sep : List Char) : List (List Char) → List Char
  | [] => []
  | [s] => s
  | s :: rest => s ++ sep ++ pyJoin sep rest

/-- The whitespace characters recognized by Python str.isspace, which are the
    characters removed by Python str.strip with no argument. -/
def pyIsSpace (c : Char) : Bool :=
  c = ' ' || c = '\t' || c = '\n' || c = '\r' || c = '\x0b' || c = '\x0c' ||
  c = '\x1c' || c = '\x1d' || c = '\x1e' || c = '\x1f' || c = '\u0085' ||
  c = '\u00a0' || c = '\u1680' || ('\u2000' ≤ c && c ≤ '\u200a') ||
  c = '\u2028' || c = '\u2029' || c = '\u202f' || c = '\u205f' || c = '\u3000'

/-- Python str.strip(): remove leading and trailing whitespace. -/
def pyStrip (s : List Char) : List Char :=
  ((s.dropWhile pyIsSpace).reverse.dropWhile pyIsSpace).reverse

/-- True for the characters that Python str.splitlines treats as a line
    boundary on their own. -/
def isLineBound (c : Char) : Bool :=
  c = '\n' || c = '\r' || c = '\x0b' || c = '\x0c' || c = '\x1c' ||
  c = '\x1d' || c = '\x1e' || c = '\u0085' || c = '\u2028' || c = '\u2029'

/-- Python str.splitlines(): split at line boundaries, treating a
    carriage return followed by a newline as a single boundary, and
    producing no trailing empty line. -/
def pySplitlines : List Char → List (List Char)
  | [] => []
  | '\r' :: '\n' :: rest => [] :: pySplitlines rest
  | c :: rest =>
      if isLineBound c then
        [] :: pySplitlines rest
      else
        match pySplitlines rest with
        | [] => [[c]]
        | l :: ls => (c :: l) :: ls

/-! ### src/agentic_workflow/main.py -/

/-- The fixed delimiter string from main.py, the 20 characters of the
    string literal between three leading and three trailing dashes:
    dash dash dash BLOG_SEPARATOR dash dash dash. -/
def blogSeparator : List Char :=
  ['-', '-', '-', 'B', 'L', 'O', 'G', '_',
   'S', 'E', 'P', 'A', 'R', 'A', 'T', 'O', 'R', '-', '-', '-']

/-- The file-saving loop of main.py, lines 153-160: enumerate the split
    segments starting at index i; skip a segment whose stripped content is
    empty; otherwise record the pair of the file number used in the name
    blog_N.md (the index plus one) and the stripped content written. -/
def saveBlogs (i : Nat) : List (List Char) → List (Nat × List Char)
  | [] => []
  | b :: bs =>
      if (pyStrip b).isEmpty then saveBlogs (i + 1) bs
      else (i + 1, pyStrip b) :: saveBlogs (i + 1) bs

/-- Lines 150-160 of main.py: when the full response is non-empty (Python
    string truthiness), split it on the delimiter and save the blogs;
    the result lists, in order, the numbered files written. -/
def mainSave (resp : List Char) : List (Nat × List Char) :=
  if resp.isEmpty then [] else saveBlogs 0 (pySplit blogSeparator resp)

/-- The character class of the regular expression in main.py line 131:
    an ASCII letter or digit. -/
def isAsciiAlnum (c : Char) : Bool :=
  ('a' ≤ c && c ≤ 'z') || ('A' ≤ c && c ≤ 'Z') || ('0' ≤ c && c ≤ '9')

/-- main.py line 131: re.sub replaces every character outside the class
    a-zA-Z0-9 with an underscore. -/
def sanitizeName (s : List Char) : List Char :=
  s.map fun c => if isAsciiAlnum c then c else '_'

/-- A relative path component names a direct child of its directory when it
    is non-empty, holds no path separator, and is not the self or parent
    reference.  This is the property the implicit safety claim asserts of
    the sanitized directory name. -/
def directChildName (n : List Char) : Bool :=
  !n.isEmpty && n.all (fun c => !(c = '/' || c = '\\')) &&
    !(n = ['.'] || n = ['.', '.'])

/-- One pass of the interactive while loop in main.py: the user typed the
    exit command, or the iteration body ran to completion with some full
    model response, or some step of the body raised an exception with the
    given message. -/
inductive IterEvent
  | exitCmd
  | completed (userInput : List Char) (fullResponse : List Char)
  | raises (e : List Char)
deriving DecidableEq

/-- An observable effect of the loop: a printed line, or a file
    blog_N.md written with some content. -/
inductive LoopOutput
  | printed (msg : List Char)
  | wrote (idx : Nat) (content : List Char)
deriving DecidableEq

/-- The while True loop of main.py lines 95-165: the body runs inside
    try; on the exit command the loop breaks; an exception is caught by
    the except clause, which prints the message Erro: followed by the
    exception text, and the loop continues with the next iteration. -/
def runLoop : List IterEvent → List LoopOutput
  | [] => []
  | IterEvent.exitCmd :: _ => []
  | IterEvent.completed _ resp :: rest =>
      (mainSave resp).map (fun p => LoopOutput.wrote p.1 p.2) ++ runLoop rest
  | IterEvent.raises e :: rest =>
      LoopOutput.printed ("Erro: ".toList ++ e) :: runLoop rest

/-! ### src/tools/scrape_tools.py -/

/-- Lines 30-34 of scrape_tools.py: strip each line of the extracted text,
    split every line on two consecutive spaces, strip each such phrase,
    drop the blank chunks and join the rest with newlines. -/
def cleanText (text : List Char) : List Char :=
  let lines := (pySplitlines text).map pyStrip
  let chunks := (lines.map fun line => (pySplit [' ', ' '] line).map pyStrip).flatten
  pyJoin ['\n'] (chunks.filter fun c => !c.isEmpty)

/-- ScrapeWebsiteTool.run: the HTTP fetch and HTML text extraction are an
    external boundary, modelled by their outcome.  On success the cleaned
    text is truncated to 8000 characters; an exception is caught and turned
    into an error string. -/
def scrapeRun : Except (List Char) (List Char) → List Char
  | Except.ok extracted => (cleanText extracted).take 8000
  | Except.error e => "Error scraping website: ".toList ++ e

/-! ### src/tools/search_tools.py -/

/-- One entry of the organic list of a search response; Python dict.get
    yields None for a missing key. -/
structure OrganicResult where
  title : Option (List Char)
  link : Option (List Char)
  snippet : Option (List Char)
deriving DecidableEq

/-- The parsed JSON body of a successful search response: results.get with
    default means a missing organic key acts as the empty list. -/
structure SearchResponse where
  organic : List OrganicResult
deriving DecidableEq

/-- Rendering of an optional field inside a Python f-string: None prints
    as the four letters None. -/
def optStr : Option (List Char) → List Char
  | some s => s
  | none => "None".toList

/-- Line 32 of search_tools.py: one Title/Link/Snippet block. -/
def formatResult (r : OrganicResult) : List Char :=
  "Title: ".toList ++ optStr r.title ++ "\nLink: ".toList ++ optStr r.link ++
    "\nSnippet: ".toList ++ optStr r.snippet ++ "\n".toList

/-- SerperDevTool.run: the HTTP call and JSON parse are an external
    boundary, modelled by their outcome.  On success the first five organic
    results are formatted and joined with newlines, with a fixed message
    when the formatted list is empty; an exception is caught and turned
    into an error string. -/
def searchRun : Except (List Char) SearchResponse → List Char
  | Except.ok results =>
      let output := (results.organic.take 5).map formatResult
      if output.isEmpty then "No results found.".toList
      else pyJoin "\n".toList output
  | Except.error e => "Error performing search: ".toList ++ e

/-! ### Helper lemmas about the save loop -/

theorem saveBlogs_map_snd (bs : List (List Char)) :
    ∀ i : Nat, (saveBlogs i bs).map Prod.snd =
      (bs.map pyStrip).filter (fun b => !b.isEmpty) := by
  induction bs with
  | nil => intro i; rfl
  | cons b bs ih =>
      intro i
      cases hb : (pyStrip b).isEmpty with
      | true => simp [saveBlogs, hb, ih]
      | false => simp [saveBlogs, hb, ih]

theorem saveBlogs_key_gt (bs : List (List Char)) :
    ∀ (i : Nat) (p : Nat × List Char), p ∈ saveBlogs i bs → i < p.1 := by
  induction bs with
  | nil => intro i p hp; simp [saveBlogs] at hp
  | cons b bs ih =>
      intro i p hp
      cases hb : (pyStrip b).isEmpty with
      | true =>
          rw [saveBlogs, if_pos (by simp [hb])] at hp
          exact Nat.lt_of_succ_lt (ih (i + 1) p hp)
      | false =>
          rw [saveBlogs, if_neg (by simp [hb])] at hp
          rcases List.mem_cons.mp hp with heq | hmem
          · rw [heq]; exact Nat.lt_succ_self i
          · exact Nat.lt_of_succ_lt (ih (i + 1) p hmem)

theorem saveBlogs_keys_nodup (bs : List (List Char)) :
    ∀ i : Nat, ((saveBlogs i bs).map Prod.fst).Nodup := by
  induction bs with
  | nil => intro i; simp [saveBlogs]
  | cons b bs ih =>
      intro i
      cases hb : (pyStrip b).isEmpty with
      | true => simpa [saveBlogs, hb] using ih (i + 1)
      | false =>
          rw [saveBlogs, if_neg (by simp [hb])]
          refine List.nodup_cons.mpr ⟨?_, ih (i + 1)⟩
          intro hmem
          obtain ⟨p, hp, hfst⟩ := List.mem_map.mp hmem
          have := saveBlogs_key_gt bs (i + 1) p hp
          simp at hfst
          omega

theorem saveBlogs_mem_position (bs : List (List Char)) :
    ∀ (i k : Nat) (c : List Char), (k, c) ∈ saveBlogs i bs →
      i < k ∧ ∃ seg, bs[k - i - 1]? = some seg ∧ pyStrip seg = c := by
  induction bs with
  | nil => intro i k c hm; simp [saveBlogs] at hm
  | cons b bs ih =>
      intro i k c hm
      cases hb : (pyStrip b).isEmpty with
      | true =>
          rw [saveBlogs, if_pos (by simp [hb])] at hm
          obtain ⟨hik, seg, hseg, hstrip⟩ := ih (i + 1) k c hm
          refine ⟨by omega, seg, ?_, hstrip⟩
          have harith : k - i - 1 = (k - (i + 1) - 1) + 1 := by omega
          rw [harith]
          simpa using hseg
      | false =>
          rw [saveBlogs, if_neg (by simp [hb])] at hm
          rcases List.mem_cons.mp hm with heq | hmem
          · have hk : k = i + 1 := congrArg Prod.fst heq
            have hc : c = pyStrip b := congrArg Prod.snd heq
            refine ⟨by omega, b, ?_, hc.symm⟩
            have harith : k - i - 1 = 0 := by omega
            rw [harith]
            simp
          · obtain ⟨hik, seg, hseg, hstrip⟩ := ih (i + 1) k c hmem
            refine ⟨by omega, seg, ?_, hstrip⟩
            have harith : k - i - 1 = (k - (i + 1) - 1) + 1 := by omega
            rw [harith]
            simpa using hseg

/-! ### Claim theorems -/

/-- C1: the orchestrator splits the full model response on the fixed
    delimiter and writes exactly the segments whose stripped content is
    non-empty, each file containing that segment stripped of leading and
    trailing whitespace, in order. -/
theorem mainSave_exact_segments (resp : List Char) :
    (mainSave resp).map Prod.snd =
      ((pySplit blogSeparator resp).map pyStrip).filter (fun b => !b.isEmpty) := by
  cases resp with
  | nil => decide
  | cons x xs => simp [mainSave, saveBlogs_map_snd]

/-- C2: on success the scrape tool returns the extracted-and-cleaned page
    text truncated to a fixed length: the returned string is an initial
    segment of the cleaned text and its length never exceeds 8000. -/
theorem scrapeRun_truncates (text : List Char) :
    (∃ rest, cleanText text = scrapeRun (Except.ok text) ++ rest) ∧
      (scrapeRun (Except.ok text)).length ≤ 8000 := by
  refine ⟨⟨(cleanText text).drop 8000, ?_⟩, ?_⟩
  · show cleanText text = (cleanText text).take 8000 ++ (cleanText text).drop 8000
    exact (List.take_append_drop 8000 (cleanText text)).symm
  · show ((cleanText text).take 8000).length ≤ 8000
    rw [List.length_take]
    exact min_le_left _ _

/-- C3: both HTTP tools catch an exception arising during the call and
    return an ordinary string beginning with their error message, so the
    caller always receives a string rather than a raised exception. -/
theorem tools_catch_and_return_error_strings (e : List Char) :
    scrapeRun (Except.error e) = "Error scraping website: ".toList ++ e ∧
      searchRun (Except.error e) = "Error performing search: ".toList ++ e :=
  ⟨rfl, rfl⟩

/-- C4: an exception raised inside one iteration of the interactive loop is
    caught and printed as the message Erro followed by the exception text,
    and the loop proceeds with the remaining iterations instead of
    terminating. -/
theorem loop_catches_and_continues (pre : List IterEvent) (e : List Char)
    (rest : List IterEvent) (h : IterEvent.exitCmd ∉ pre) :
    runLoop (pre ++ IterEvent.raises e :: rest) =
      runLoop pre ++ LoopOutput.printed ("Erro: ".toList ++ e) :: runLoop rest := by
  induction pre with
  | nil => rfl
  | cons ev pre ih =>
      have hev : ev ≠ IterEvent.exitCmd := fun hh => h (hh ▸ List.mem_cons_self ev pre)
      have hpre : IterEvent.exitCmd ∉ pre := fun hm => h (List.mem_cons_of_mem ev hm)
      cases ev with
      | exitCmd => exact absurd rfl hev
      | completed u resp => simp [runLoop, ih hpre]
      | raises e2 => simp [runLoop, ih hpre]

theorem loop_catches_and_continues_witness :
    IterEvent.exitCmd ∉ [IterEvent.completed [] []] ∧
      runLoop ([IterEvent.completed [] []] ++ IterEvent.raises ['x'] :: []) =
        runLoop [IterEvent.completed [] []] ++
          LoopOutput.printed ("Erro: ".toList ++ ['x']) :: runLoop [] :=
  ⟨by decide, loop_catches_and_continues _ _ _ (by decide)⟩

/-- C6: on a successful search response with at least one organic result,
    the search tool returns the first at most five organic entries, in their
    original order, each rendered as a Title/Link/Snippet block, joined by
    newlines; the number of rendered entries is the minimum of five and the
    number of organic results. -/
theorem searchRun_top5 (r : SearchResponse) (h : r.organic ≠ []) :
    searchRun (Except.ok r) =
      pyJoin "\n".toList ((r.organic.take 5).map formatResult) ∧
      ((r.organic.take 5).map formatResult).length = min 5 r.organic.length := by
  have h5 : r.organic.take 5 ≠ [] := by
    cases ho : r.organic with
    | nil => exact absurd ho h
    | cons a l => simp [List.take]
  have hm : (r.organic.take 5).map formatResult ≠ [] := by
    simpa using h5
  constructor
  · show (if ((r.organic.take 5).map formatResult).isEmpty then _ else _) = _
    rw [if_neg (by simpa using hm)]
  · simp

theorem searchRun_top5_witness :
    (SearchResponse.mk [OrganicResult.mk none none none]).organic ≠ [] ∧
      (searchRun (Except.ok (SearchResponse.mk [OrganicResult.mk none none none])) =
        pyJoin "\n".toList
          (((SearchResponse.mk [OrganicResult.mk none none none]).organic.take 5).map
            formatResult) ∧
        (((SearchResponse.mk [OrganicResult.mk none none none]).organic.take 5).map
            formatResult).length =
          min 5 (SearchResponse.mk [OrganicResult.mk none none none]).organic.length) :=
  ⟨by decide, searchRun_top5 _ (by decide)⟩

/-- C7: within one analysis iteration each blog file number is used at most
    once: the list of file names produced by the save loop has no
    duplicates, so a file written once is not rewritten later in the
    iteration (and no step of the loop removes a file). -/
theorem mainSave_filenames_written_once (resp : List Char) :
    ((mainSave resp).map Prod.fst).Nodup := by
  cases resp with
  | nil => simp [mainSave]
  | cons x xs =>
      show ((if (List.cons x xs).isEmpty then [] else
        saveBlogs 0 (pySplit blogSeparator (x :: xs))).map Prod.fst).Nodup
      rw [if_neg (by simp)]
      exact saveBlogs_keys_nodup _ 0

/-- C9: a saved blog is numbered by the position of its segment in the
    split, not by a running count of files written: a saved pair with
    number k comes from segment k - 1 of the split, and on a response whose
    middle segment is blank the saved numbers are 1 and 3 with no number
    2. -/
theorem blog_numbering_by_position :
    (∀ (resp : List Char) (k : Nat) (c : List Char), (k, c) ∈ mainSave resp →
        1 ≤ k ∧ ∃ seg, (pySplit blogSeparator resp)[k - 1]? = some seg ∧
          pyStrip seg = c) ∧
      mainSave ("A".toList ++ blogSeparator ++ " ".toList ++ blogSeparator ++
          "B".toList) = [(1, ['A']), (3, ['B'])] := by
  constructor
  · intro resp k c hm
    cases resp with
    | nil => simp [mainSave] at hm
    | cons x xs =>
        rw [mainSave, if_neg (by simp)] at hm
        obtain ⟨h0, seg, hseg, hstrip⟩ := saveBlogs_mem_position _ 0 k c hm
        refine ⟨h0, seg, ?_, hstrip⟩
        simpa using hseg
  · decide

theorem blog_numbering_by_position_witness :
    1 ≤ 1 ∧ ∃ seg,
      (pySplit blogSeparator ("A".toList ++ blogSeparator ++ " ".toList ++
        blogSeparator ++ "B".toList))[1 - 1]? = some seg ∧ pyStrip seg = ['A'] :=
  blog_numbering_by_position.1 _ 1 ['A'] (by decide)

/-- C10: when the search call succeeds but the organic result list is
    empty, the search tool returns exactly the fixed no-results message. -/
theorem searchRun_empty_organic (r : SearchResponse) (h : r.organic = []) :
    searchRun (Except.ok r) = "No results found.".toList := by
  cases r with
  | mk organic =>
      cases h
      rfl

theorem searchRun_empty_organic_witness :
    searchRun (Except.ok (SearchResponse.mk [])) = "No results found.".toList :=
  searchRun_empty_organic (SearchResponse.mk []) rfl

/-! ### Lemmas about pySplit, toward the join/split round trip -/

theorem pySplitF_cons_pos (d : Char) (ds : List Char) (f : Nat) (c : Char)
    (cs : List Char) (h : ((d = c) && headMatches ds cs) = true) :
    pySplitF d ds (f + 1) (c :: cs) =
      [] :: pySplitF d ds f (cs.drop ds.length) := by
  simp [pySplitF, h]

theorem pySplitF_cons_neg (d : Char) (ds : List Char) (f : Nat) (c : Char)
    (cs : List Char) (h : ((d = c) && headMatches ds cs) = false) :
    pySplitF d ds (f + 1) (c :: cs) =
      match pySplitF d ds f cs with
      | [] => [[c]]
      | seg :: segs => (c :: seg) :: segs := by
  simp [pySplitF, h]

theorem pySplitF_fuel_eq (d : Char) (ds : List Char) :
    ∀ (f1 : Nat) (s : List Char) (f2 : Nat), s.length ≤ f1 → s.length ≤ f2 →
      pySplitF d ds f1 s = pySplitF d ds f2 s := by
  intro f1
  induction f1 with
  | zero =>
      intro s f2 h1 h2
      cases s with
      | nil => cases f2 <;> rfl
      | cons c cs => simp at h1
  | succ g1 ih =>
      intro s f2 h1 h2
      cases s with
      | nil => cases f2 <;> rfl
      | cons c cs =>
          cases f2 with
          | zero => simp at h2
          | succ g2 =>
              have hc1 : cs.length ≤ g1 := by simp at h1; omega
              have hc2 : cs.length ≤ g2 := by simp at h2; omega
              have hd1 : (cs.drop ds.length).length ≤ g1 := by
                rw [List.length_drop]; omega
              have hd2 : (cs.drop ds.length).length ≤ g2 := by
                rw [List.length_drop]; omega
              cases hb : (d = c) && headMatches ds cs with
              | true =>
                  rw [pySplitF_cons_pos d ds g1 c cs hb,
                    pySplitF_cons_pos d ds g2 c cs hb,
                    ih (cs.drop ds.length) g2 hd1 hd2]
              | false =>
                  rw [pySplitF_cons_neg d ds g1 c cs hb,
                    pySplitF_cons_neg d ds g2 c cs hb,
                    ih cs g2 hc1 hc2]

theorem headMatches_refl_append (p r : List Char) :
    headMatches p (p ++ r) = true := by
  induction p with
  | nil => rfl
  | cons c cs ih => simp [headMatches, ih]

theorem headMatches_append_cases (a : List Char) :
    ∀ (p x : List Char), headMatches p (a ++ x) = true →
      headMatches p a = true ∨ headMatches a p = true := by
  induction a with
  | nil => intro p x _; exact Or.inr rfl
  | cons c a ih =>
      intro p x h
      cases p with
      | nil => exact Or.inl rfl
      | cons e ps =>
          rw [List.cons_append, headMatches, Bool.and_eq_true] at h
          obtain ⟨hec, hrest⟩ := h
          have hec2 : e = c := of_decide_eq_true hec
          rcases ih ps x hrest with h1 | h2
          · left; rw [headMatches, h1, hec2]; simp
          · right; rw [headMatches, h2, hec2]; simp

theorem pySplitF_no_occurrence (d : Char) (ds : List Char) :
    ∀ (fuel : Nat) (s : List Char), s.length ≤ fuel →
      containsSlice (d :: ds) s = false → pySplitF d ds fuel s = [s] := by
  intro fuel
  induction fuel with
  | zero =>
      intro s h1 _
      cases s with
      | nil => rfl
      | cons c cs => simp at h1
  | succ f ih =>
      intro s h1 h2
      cases s with
      | nil => rfl
      | cons c cs =>
          have hlen : cs.length ≤ f := by simp at h1; omega
          rw [containsSlice, Bool.or_eq_false_iff] at h2
          have hcond : ((d = c) && headMatches ds cs) = false := by
            have := h2.1; rwa [headMatches] at this
          rw [pySplitF_cons_neg d ds f c cs hcond, ih cs hlen h2.2]

theorem pySplitF_boundary (d : Char) (ds : List Char) :
    ∀ (a t : List Char) (fuel : Nat),
      (a ++ ((d :: ds) ++ t)).length ≤ fuel →
      containsSlice (d :: ds) a = false →
      endsWithStartOf (d :: ds) a = false →
      pySplitF d ds fuel (a ++ ((d :: ds) ++ t)) =
        a :: pySplitF d ds t.length t := by
  intro a
  induction a with
  | nil =>
      intro t fuel hf _ _
      cases fuel with
      | zero => simp at hf
      | succ f =>
          show pySplitF d ds (f + 1) (d :: (ds ++ t)) = [] :: pySplitF d ds t.length t
          rw [pySplitF_cons_pos d ds f d (ds ++ t)
            (by simp [headMatches_refl_append])]
          rw [List.drop_left]
          have ht : t.length ≤ f := by simp at hf; omega
          rw [pySplitF_fuel_eq d ds f t t.length ht (le_refl _)]
  | cons c a ih =>
      intro t fuel hf hc he
      cases fuel with
      | zero => simp at hf
      | succ f =>
          rw [containsSlice, Bool.or_eq_false_iff] at hc
          rw [endsWithStartOf, Bool.or_eq_false_iff] at he
          have hcond : ((d = c) && headMatches ds (a ++ ((d :: ds) ++ t))) = false := by
            cases hcc : (d = c) && headMatches ds (a ++ ((d :: ds) ++ t)) with
            | false => rfl
            | true =>
                exfalso
                have hm : headMatches (d :: ds) ((c :: a) ++ ((d :: ds) ++ t)) = true := by
                  rw [List.cons_append, headMatches]
                  exact hcc
                rcases headMatches_append_cases (c :: a) (d :: ds)
                    ((d :: ds) ++ t) hm with h1 | h2
                · rw [hc.1] at h1; cases h1
                · rw [he.1] at h2; cases h2
          have hlen : (a ++ ((d :: ds) ++ t)).length ≤ f := by
            simp at hf ⊢; omega
          rw [List.cons_append, pySplitF_cons_neg d ds f c (a ++ ((d :: ds) ++ t)) hcond,
            ih t f hlen hc.2 he.2]

theorem pySplit_roundtrip (d : Char) (ds : List Char) :
    ∀ segs : List (List Char), segs ≠ [] →
      (∀ s ∈ segs, containsSlice (d :: ds) s = false) →
      (∀ s ∈ segs, endsWithStartOf (d :: ds) s = false) →
      pySplit (d :: ds) (pyJoin (d :: ds) segs) = segs := by
  intro segs
  induction segs with
  | nil => intro h; exact absurd rfl h
  | cons s segs ih =>
      intro _ hc he
      cases segs with
      | nil =>
          show pySplitF d ds s.length s = [s]
          exact pySplitF_no_occurrence d ds s.length s (le_refl _)
            (hc s (List.mem_cons_self s _))
      | cons s2 rest =>
          have hjoin : pyJoin (d :: ds) (s :: s2 :: rest) =
              s ++ ((d :: ds) ++ pyJoin (d :: ds) (s2 :: rest)) := by
            show s ++ (d :: ds) ++ pyJoin (d :: ds) (s2 :: rest) =
              s ++ ((d :: ds) ++ pyJoin (d :: ds) (s2 :: rest))
            rw [List.append_assoc]
          have htail := ih (List.cons_ne_nil s2 rest)
            (fun x hx => hc x (List.mem_cons_of_mem s hx))
            (fun x hx => he x (List.mem_cons_of_mem s hx))
          rw [pySplit] at htail
          show pySplit (d :: ds) (pyJoin (d :: ds) (s :: s2 :: rest)) = s :: s2 :: rest
          rw [pySplit, hjoin]
          rw [pySplitF_boundary d ds s (pyJoin (d :: ds) (s2 :: rest)) _
            (le_refl _) (hc s (List.mem_cons_self s _)) (he s (List.mem_cons_self s _))]
          rw [htail]

/-- C5 counterexample: as stated, the join/split round trip fails on the
    fixed delimiter.  First failing input: the empty list of segments,
    whose join splits into one empty segment, not zero segments.  Second
    failing input: the two segments dash dash dash BLOG_SEPARATOR (the first
    17 characters of the delimiter) and the empty segment; neither contains
    the delimiter, yet joining and splitting yields two different segments,
    because the join contains an occurrence of the delimiter starting inside
    the first segment. -/
theorem join_split_roundtrip_cex :
    (pySplit blogSeparator (pyJoin blogSeparator ([] : List (List Char))) ≠ []) ∧
      ((∀ s ∈ [blogSeparator.take 17, ([] : List Char)],
          containsSlice blogSeparator s = false) ∧
        pySplit blogSeparator
            (pyJoin blogSeparator [blogSeparator.take 17, ([] : List Char)]) ≠
          [blogSeparator.take 17, ([] : List Char)]) := by
  refine ⟨by decide, by decide, by decide⟩

/-- C5 (amended): for the fixed delimiter, joining a non-empty list of
    segments with the delimiter and splitting the result on the delimiter
    returns exactly the original segments, provided no segment contains the
    delimiter and no segment ends with a non-empty prefix of the
    delimiter. -/
theorem join_split_roundtrip (segs : List (List Char)) (hne : segs ≠ [])
    (hc : ∀ s ∈ segs, containsSlice blogSeparator s = false)
    (he : ∀ s ∈ segs, endsWithStartOf blogSeparator s = false) :
    pySplit blogSeparator (pyJoin blogSeparator segs) = segs :=
  pySplit_roundtrip '-'
    ['-', '-', 'B', 'L', 'O', 'G', '_',
     'S', 'E', 'P', 'A', 'R', 'A', 'T', 'O', 'R', '-', '-', '-']
    segs hne hc he

theorem join_split_roundtrip_witness :
    (([['A'], ['B'], []] : List (List Char)) ≠ [] ∧
      (∀ s ∈ ([['A'], ['B'], []] : List (List Char)),
        containsSlice blogSeparator s = false) ∧
      (∀ s ∈ ([['A'], ['B'], []] : List (List Char)),
        endsWithStartOf blogSeparator s = false)) ∧
      pySplit blogSeparator (pyJoin blogSeparator [['A'], ['B'], []]) =
        [['A'], ['B'], []] :=
  ⟨⟨by decide, by decide, by decide⟩,
    join_split_roundtrip _ (by decide) (by decide) (by decide)⟩

/-- C8 counterexample: for the empty user input (which the loop does not
    filter out), the sanitized name is the empty string, so the joined path
    names the output directory itself rather than a direct child of it. -/
theorem sanitize_direct_child_cex :
    ¬ directChildName (sanitizeName []) = true := by decide

/-- C8 (amended): for every non-empty input string, the sanitized directory
    name, the input with every character that is not an ASCII letter or
    digit replaced by an underscore, names a direct child of the output
    directory: it is non-empty, holds no path separator and is not a self
    or parent reference. -/
theorem sanitize_direct_child (s : List Char) (h : s ≠ []) :
    directChildName (sanitizeName s) = true := by
  have hchar : ∀ c ∈ sanitizeName s, isAsciiAlnum c = true ∨ c = '_' := by
    intro c hcm
    obtain ⟨a, _, ha⟩ := List.mem_map.mp hcm
    by_cases hA : isAsciiAlnum a = true
    · left; rw [← ha, if_pos hA]; exact hA
    · right; rw [← ha, if_neg hA]
  have h1 : (sanitizeName s).isEmpty = false := by
    cases hs : sanitizeName s with
    | nil =>
        exfalso
        exact h (List.map_eq_nil_iff.mp hs)
    | cons a l => rfl
  have h2 : (sanitizeName s).all (fun c => !(c = '/' || c = '\\')) = true := by
    rw [List.all_eq_true]
    intro c hcm
    rcases hchar c hcm with hA | hU
    · have hslash : c ≠ '/' := fun heq => by rw [heq] at hA; exact absurd hA (by decide)
      have hback : c ≠ '\\' := fun heq => by rw [heq] at hA; exact absurd hA (by decide)
      simp [hslash, hback]
    · rw [hU]; decide
  have hdot : ∀ c ∈ sanitizeName s, c ≠ '.' := by
    intro c hcm heq
    rcases hchar c hcm with hA | hU
    · rw [heq] at hA; exact absurd hA (by decide)
    · rw [heq] at hU; exact absurd hU (by decide)
  have h3a : sanitizeName s ≠ ['.'] := by
    intro hq
    have hm : ('.' : Char) ∈ sanitizeName s := by rw [hq]; simp
    exact hdot '.' hm rfl
  have h3b : sanitizeName s ≠ ['.', '.'] := by
    intro hq
    have hm : ('.' : Char) ∈ sanitizeName s := by rw [hq]; simp
    exact hdot '.' hm rfl
  rw [directChildName]
  simp only [h1, h2, h3a, h3b, Bool.not_false, Bool.and_self, Bool.and_true]
  simp [h3a, h3b]

theorem sanitize_direct_child_witness :
    (['h', 't', 't', 'p', ':', '/', '/'] : List Char) ≠ [] ∧
      directChildName (sanitizeName ['h', 't', 't', 'p', ':', '/', '/']) = true :=
  ⟨by decide, sanitize_direct_child _ (by decide)⟩
